import Mathlib

/-!
Verification development for the echokit_box voice-session engine.

The Rust sources are shallowly embedded: machine integers are modelled as
`Nat`/`Int` (with explicit wrap-around where the source can overflow),
`f32`/`f64` duration and speed arithmetic is modelled as exact rationals,
`Vec<T>` as `List`, `LinkedList` as `List`, and `Arc<tokio::sync::Notify>`
completion handles as opaque identifiers (`Signal`).  Channel sends and
display rendering are modelled as emitted output events; external library
calls (msgpack decode, the opus decoder, the network) are parameters of the
embedded step functions.
-/

namespace EchoKit

/-! ## Protocol data model (src/protocol.rs) -/

/-- `ServerEvent` from src/protocol.rs.  `Vec<u8>` payloads are `List Nat`
(byte values), `Vec<i16>` payloads are `List Int`. -/
inductive ServerEvent
  | HelloStart
  | HelloChunk (data : List Nat)
  | HelloEnd
  | ASR (text : String)
  | Action (action : String)
  | Choices (message : String) (items : List String)
  | HasNotification
  | StartAudio (text : String)
  | AudioChunk (data : List Nat)
  | AudioChunkWithVowel (data : List Nat) (vowel : Nat)
  | AudioChunki16 (data : List Int) (vowel : Nat)
  | DisplayText (text : String)
  | EndAudio
  | StartVideo
  | EndVideo
  | EndResponse
  | EndVad
  deriving DecidableEq

/-- `ClientCommand` from src/protocol.rs. -/
inductive ClientCommand
  | StartRecord
  | StartChat
  | Submit
  | Text (input : String)
  | Select (index : Nat)
  deriving DecidableEq

/-! ## Playback send-buffer (src/audio.rs) -/

/-- Identity of an `Arc<tokio::sync::Notify>` completion handle. -/
abbrev Signal := Nat

/-- `SendBufferItem` from src/audio.rs. -/
inductive SendBufferItem
  | Vowel (v : Nat)
  | Audio (data : List Int)
  | EndSpeech (notify : Signal)
  deriving DecidableEq

/-- `SendBuffer` from src/audio.rs; the `cache` linked list is a `List`. -/
structure SendBuffer where
  cache : List SendBufferItem
  chunk_size : Nat
  rest : List Int
  volume : Int
  deriving DecidableEq

/-- `get_volume` from src/audio.rs.  Rust `i16` division truncates toward
zero, which is `Int.div`.  The divisors are positive powers of two, so the
i16 division never overflows and the `Int` model agrees with the source for
in-range samples. -/
def get_volume (value : Int) (volume : Int) : Int :=
  if volume = 0 then 0
  else if volume = 1 then Int.tdiv value 16
  else if volume = 2 then Int.tdiv value 8
  else if volume = 3 then Int.tdiv value 4
  else if volume = 4 then Int.tdiv value 2
  else value

/-- `SendBuffer::new` from src/audio.rs. -/
def SendBuffer.new (chunk_size : Nat) : SendBuffer :=
  { cache := [], chunk_size := chunk_size, rest := [], volume := 3 }

/-- Result of popping the queue: the returned item, the remaining queue and
the completion signals fired while popping. -/
structure PopResult where
  item : Option SendBufferItem
  queue : List SendBufferItem
  signaled : List Signal
  deriving DecidableEq

/-- `SendBuffer::get_chunk` from src/audio.rs, on the cache list: pop until
a non-`EndSpeech` entry (or the queue is empty), notifying every `EndSpeech`
marker popped on the way. -/
def get_chunk : List SendBufferItem → PopResult
  | [] => ⟨none, [], []⟩
  | SendBufferItem.Vowel v :: rest => ⟨some (SendBufferItem.Vowel v), rest, []⟩
  | SendBufferItem.Audio a :: rest => ⟨some (SendBufferItem.Audio a), rest, []⟩
  | SendBufferItem.EndSpeech s :: rest =>
      let r := get_chunk rest
      ⟨r.item, r.queue, s :: r.signaled⟩

/-- The loop body of `SendBuffer::clear` from src/audio.rs: drain the whole
queue, collecting the completion signals of every `EndSpeech` marker met. -/
def clearSignals : List SendBufferItem → List Signal
  | [] => []
  | SendBufferItem.EndSpeech s :: rest => s :: clearSignals rest
  | _ :: rest => clearSignals rest

/-- `SendBuffer::clear` from src/audio.rs: the cache ends empty and every
pending `EndSpeech` marker has been signaled. -/
def SendBuffer.clear (b : SendBuffer) : SendBuffer × List Signal :=
  ({ b with cache := [] }, clearSignals b.cache)

/-- The completion markers pending in a queue, in order. -/
def markersOf (q : List SendBufferItem) : List Signal :=
  q.filterMap fun it =>
    match it with
    | SendBufferItem.EndSpeech s => some s
    | _ => none

/-- Whether an entry is an `EndSpeech` completion marker. -/
def isMarker : SendBufferItem → Bool
  | SendBufferItem.EndSpeech _ => true
  | _ => false

/-- The `for chunk in data.chunks(self.chunk_size)` loop of
`SendBuffer::push_i16` (src/audio.rs): each full chunk is volume-scaled and
appended to the cache; a trailing under-sized chunk becomes the new `rest`
(unscaled).  The source panics on `chunk_size == 0` (`slice::chunks`);
that case is modelled as a no-op and is excluded by the theorems (the
configured chunk size is the positive hardware feed size, 256). -/
def chunksLoopI16 (b : SendBuffer) (data : List Int) : SendBuffer :=
  if _hz : b.chunk_size = 0 then b
  else if _h0 : data.length = 0 then b
  else if _hs : data.length < b.chunk_size then { b with rest := data }
  else
    chunksLoopI16
      { b with cache := b.cache ++
          [SendBufferItem.Audio
            ((data.take b.chunk_size).map (fun x => get_volume x b.volume))] }
      (data.drop b.chunk_size)
  termination_by data.length
  decreasing_by simp only [List.length_drop]; omega

/-- `SendBuffer::push_i16` from src/audio.rs.  When `rest` is non-empty it
is completed to a full chunk (volume-scaled as a whole) and the source
recurses on the remaining samples; since `rest` is empty at that recursive
call, the call is exactly the chunks loop and is inlined as such. -/
def SendBuffer.push_i16 (b : SendBuffer) (data : List Int) : SendBuffer :=
  if b.rest.length > 0 then
    let needed := b.chunk_size - b.rest.length
    if data.length ≥ needed then
      let v := (b.rest ++ data.take needed).map (fun x => get_volume x b.volume)
      chunksLoopI16
        { b with rest := [], cache := b.cache ++ [SendBufferItem.Audio v] }
        (data.drop needed)
    else
      { b with rest := b.rest ++ data }
  else
    chunksLoopI16 b data

/-- `i16::from_le_bytes([lo, hi])` on byte values. -/
def toI16LE (lo hi : Nat) : Int :=
  let u := lo % 256 + 256 * (hi % 256)
  if u < 32768 then (u : Int) else (u : Int) - 65536

/-- Decode consecutive little-endian byte pairs into i16 samples, as the
`for i in 0..(n / 2)` loops of `SendBuffer::push_u8` do (a trailing odd
byte is ignored, matching `n / 2`). -/
def decodePairs : List Nat → List Int
  | lo :: hi :: rest => toI16LE lo hi :: decodePairs rest
  | _ => []

/-- The `for chunk in data.chunks(self.chunk_size * 2)` loop of
`SendBuffer::push_u8` (src/audio.rs).  A full byte chunk decodes to exactly
`chunk_size` samples and is scaled and cached; a trailing short chunk
decodes to fewer than `chunk_size` samples and becomes the new `rest`. -/
def chunksLoopU8 (b : SendBuffer) (data : List Nat) : SendBuffer :=
  if _hz : b.chunk_size = 0 then b
  else if _h0 : data.length = 0 then b
  else if _hs : data.length < b.chunk_size * 2 then { b with rest := decodePairs data }
  else
    chunksLoopU8
      { b with cache := b.cache ++
          [SendBufferItem.Audio
            ((decodePairs (data.take (b.chunk_size * 2))).map
              (fun x => get_volume x b.volume))] }
      (data.drop (b.chunk_size * 2))
  termination_by data.length
  decreasing_by simp only [List.length_drop]; omega

/-- `SendBuffer::push_u8` from src/audio.rs.  Mirrors `push_i16` with the
byte-pair decoding; `needed` counts bytes.  As in `push_i16`, the source's
tail recursion always restarts with an empty `rest` and is inlined as the
chunks loop. -/
def SendBuffer.push_u8 (b : SendBuffer) (data : List Nat) : SendBuffer :=
  if b.rest.length > 0 then
    let needed := b.chunk_size * 2 - b.rest.length * 2
    if data.length ≥ needed then
      let v := (b.rest ++ decodePairs (data.take needed)).map
        (fun x => get_volume x b.volume)
      chunksLoopU8
        { b with rest := [], cache := b.cache ++ [SendBufferItem.Audio v] }
        (data.drop needed)
    else
      { b with rest := b.rest ++ decodePairs data }
  else
    chunksLoopU8 b data

/-- Removing-a-returned-item shrinks the queue. -/
theorem get_chunk_queue_lt {q : List SendBufferItem} {it : SendBufferItem}
    {q' : List SendBufferItem} {s : List Signal}
    (h : get_chunk q = ⟨some it, q', s⟩) : q'.length < q.length := by
  induction q generalizing it q' s with
  | nil => simp [get_chunk] at h
  | cons hd tl ih =>
    cases hd with
    | Vowel v => simp [get_chunk] at h; simp [h.2.1]
    | Audio a => simp [get_chunk] at h; simp [h.2.1]
    | EndSpeech sig =>
      simp only [get_chunk] at h
      cases hr : get_chunk tl with
      | mk item queue signaled =>
        rw [hr] at h
        cases item with
        | none => simp at h
        | some it' =>
          simp at h
          have := ih (show get_chunk tl = ⟨some it', queue, signaled⟩ from by rw [hr])
          simp [← h.2.1]
          omega

/-- Repeatedly calling `get_chunk` until it returns `None`, collecting the
returned entries. -/
def drain (q : List SendBufferItem) : List SendBufferItem :=
  match h : get_chunk q with
  | ⟨none, _, _⟩ => []
  | ⟨some it, q', _⟩ => it :: drain q'
  termination_by q.length
  decreasing_by exact get_chunk_queue_lt h

/-! ## Transport receive loop (src/ws.rs, `ws_manager`) -/

namespace ws

/-- An inbound WebSocket message as seen by `ws_manager`.  The
`rmp_serde::from_slice::<ServerEvent>` call is external; a binary frame is
represented by its decode outcome (`none` = the payload does not decode as
a `ServerEvent` tagged record). -/
inductive WsMessage
  | binaryFrame (decoded : Option ServerEvent)
  | textFrame
  deriving DecidableEq

/-- What one iteration of the `ws_manager` receive loop does with an
inbound item: keep looping (frame consumed/dropped), forward a decoded
event to the orchestrator channel, or leave the loop (ending the
connection attempt) normally or with an error. -/
inductive LoopOutcome
  | continueLoop
  | forward (e : ServerEvent)
  | exitOk
  | exitErr
  deriving DecidableEq

/-- The receive arm of `ws_manager`'s select loop (src/ws.rs).  `ws.next()`
returning `None` means the stream ended (`return Ok`), an `Err` is a
receive error (`return Err`).  A binary frame that fails msgpack decoding
is logged and the loop `continue`s.  The external fallible calls are
parameters: `opusDecode` is the stateful opus decoder (a failed opus
decode of an audio chunk is logged and the frame dropped, the loop
continues), `resetOk` is whether `opus_decoder.reset_state()` at a
`StartAudio` succeeds (its failure exits the loop with an error via `?`),
and `sendOk` is whether the orchestrator-channel `tx.send` of a decoded
event succeeds (its failure exits the loop with an error via `?`). -/
def recvStep (opusDecode : List Nat → Option (List Int)) (resetOk sendOk : Bool) :
    Option (Except Unit WsMessage) → LoopOutcome
  | none => LoopOutcome.exitOk
  | some (Except.error _) => LoopOutcome.exitErr
  | some (Except.ok WsMessage.textFrame) => LoopOutcome.continueLoop
  | some (Except.ok (WsMessage.binaryFrame none)) => LoopOutcome.continueLoop
  | some (Except.ok (WsMessage.binaryFrame (some evt))) =>
      match evt with
      | ServerEvent.AudioChunk data =>
          match opusDecode data with
          | some pcm =>
              if sendOk then LoopOutcome.forward (ServerEvent.AudioChunki16 pcm 0)
              else LoopOutcome.exitErr
          | none => LoopOutcome.continueLoop
      | ServerEvent.AudioChunkWithVowel data vowel =>
          match opusDecode data with
          | some pcm =>
              if sendOk then LoopOutcome.forward (ServerEvent.AudioChunki16 pcm vowel)
              else LoopOutcome.exitErr
          | none => LoopOutcome.continueLoop
      | ServerEvent.StartAudio text =>
          if resetOk then
            if sendOk then LoopOutcome.forward (ServerEvent.StartAudio text)
            else LoopOutcome.exitErr
          else LoopOutcome.exitErr
      | e =>
          if sendOk then LoopOutcome.forward e
          else LoopOutcome.exitErr

end ws

/-! ## Chat UI data (src/boards/atom_box.rs) -/

/-- `ChatMainArea` from src/boards/atom_box.rs. -/
inductive ChatMainArea
  | Content (text : String)
  | Choices (select_index : Nat) (question : String) (choices : List String)
  deriving DecidableEq

/-- The data fields of `ChatUI` from src/boards/atom_box.rs.  The
`*_updated` redraw flags and pixel chunk bookkeeping only drive rendering
and are not modelled; the setters' "store only when different" guards are
observationally the same as storing. -/
structure ChatUI where
  state_text : String
  state_volume : Nat
  state_allow_interrupt : Bool
  asr_text : String
  content : ChatMainArea
  avatar_index : Nat
  avatar_nonempty : Bool
  deriving DecidableEq

def ChatUI.set_volume (ui : ChatUI) (volume : Nat) : ChatUI :=
  { ui with state_volume := volume }

def ChatUI.set_allow_interrupt (ui : ChatUI) (allow : Bool) : ChatUI :=
  { ui with state_allow_interrupt := allow }

def ChatUI.set_state (ui : ChatUI) (text : String) : ChatUI :=
  { ui with state_text := text }

def ChatUI.set_asr (ui : ChatUI) (text : String) : ChatUI :=
  { ui with asr_text := text }

def ChatUI.set_text (ui : ChatUI) (text : String) : ChatUI :=
  { ui with content := ChatMainArea.Content text }

def ChatUI.set_choices (ui : ChatUI) (question : String) (choices : List String) : ChatUI :=
  { ui with content := ChatMainArea.Choices 0 question choices }

/-- `set_avatar_index` stores the index only when avatar image data is
present (and reports whether it did). -/
def ChatUI.set_avatar_index (ui : ChatUI) (index : Nat) : ChatUI :=
  if ui.avatar_nonempty then { ui with avatar_index := index } else ui

/-- The value range of `usize` (the target is 64-bit). -/
def USIZE : Nat := 2 ^ 64

/-- `ChatUI::update_choice_index` from src/boards/atom_box.rs.  The
`choices.len() - 1` clamp is a `usize` subtraction: for an empty choices
list it underflows (wrapping modulo `2^64` in release builds; a panic in
debug builds), which the model renders as the wrapped value. -/
def ChatUI.update_choice_index (ui : ChatUI) (index : Nat) : ChatUI × Nat :=
  match ui.content with
  | ChatMainArea.Choices _ question choices =>
      let index' :=
        if choices.length ≤ index then (choices.length + USIZE - 1) % USIZE
        else index
      ({ ui with content := ChatMainArea.Choices index' question choices }, index')
  | _ => (ui, 0)

/-! ## Session state machine (src/app.rs) -/

/-- `DownloadMetrics` from src/app.rs.  `std::time::Instant` timestamps and
`f32`/`f64` arithmetic are modelled as exact rationals; step functions take
the current instant `now` as a parameter. -/
structure Metrics where
  start_time : ℚ
  data_size : Nat
  timeout_sec : Nat
  deriving DecidableEq

/-- `DownloadMetrics::new`: the start time lies 300 s in the past so that
the first response finds the metrics stale. -/
def Metrics.new (now : ℚ) : Metrics :=
  { start_time := now - 300, data_size := 0, timeout_sec := 15 }

/-- `elapsed().as_secs() > timeout_sec`; `as_secs` truncates to whole
seconds. -/
def Metrics.is_timeout (m : Metrics) (now : ℚ) : Bool :=
  (m.timeout_sec : ℤ) < ⌊now - m.start_time⌋

def Metrics.reset (m : Metrics) (now : ℚ) : Metrics :=
  { m with start_time := now, data_size := 0 }

def Metrics.add_data (m : Metrics) (size : Nat) : Metrics :=
  { m with data_size := m.data_size + size }

def Metrics.elapsed (m : Metrics) (now : ℚ) : ℚ := now - m.start_time

/-- `speed()` = elapsed seconds / (bytes / 32000), the download-time to
realtime-playback ratio (16 kHz mono 16-bit PCM is 32000 bytes/s).  In the
model a division by zero (no data) yields 0 where `f64` would give
inf/NaN; no claim depends on that value. -/
def Metrics.speed (m : Metrics) (now : ℚ) : ℚ :=
  m.elapsed now / ((m.data_size : ℚ) / 32000)

/-- `SubmitState` from src/app.rs. -/
structure SubmitState where
  submit_audio : ℚ
  start_submit : Bool
  audio_buffer : List Int
  got_asr_result : Bool
  deriving DecidableEq

/-- `SubmitState::clear` from src/app.rs. -/
def SubmitState.clear (_s : SubmitState) : SubmitState :=
  { submit_audio := 0, start_submit := false, audio_buffer := [], got_asr_result := false }

/-- `State` from src/app.rs. -/
inductive State
  | Listening
  | Submitting
  | Waiting
  | Choices (index : Nat)
  | Speaking (block_server : Bool)
  | Idle
  deriving DecidableEq

/-- The `AudioEvent` values the orchestrator sends over `player_tx`
(src/audio.rs enum; `EndSpeech` is sent by src/app.rs without a completion
handle). -/
inductive PlayerEvent
  | Hello (notify : Signal)
  | SetHello (data : List Nat)
  | StopSpeech
  | StartSpeech
  | ClearSpeech
  | SpeechChunki16 (data : List Int)
  | SpeechChunki16WithVowel (data : List Int) (vowel : Nat)
  | EndSpeech
  | VolSet (vol : Nat)
  deriving DecidableEq

/-- Observable effects of one orchestrator step: a control command to the
server (`Server::send_client_command`; the choice confirmation
`send_client_select` is the `Select` command), an outbound binary audio
frame (`Server::send_client_audio_chunk_i16`), or an event to the audio
loop (`player_tx.send`). -/
inductive Out
  | Cmd (c : ClientCommand)
  | AudioFrame (data : List Int)
  | Player (e : PlayerEvent)
  deriving DecidableEq

/-- The `App` struct from src/app.rs.  `vad_active` models the
`crate::audio::VAD_ACTIVE` atomic written by the handlers. -/
structure App where
  state : State
  submit_state : SubmitState
  recv_audio_buffer : List (List Int × Nat)
  gui : ChatUI
  vol : Nat
  hello_wav : List Nat
  set_hello : Bool
  metrics : Metrics
  need_compute : Bool
  start_audio : Bool
  speed : ℚ
  allow_interrupt : Bool
  vad_active : Bool
  deriving DecidableEq

def App.goto_idle (a : App) : App :=
  { a with state := State.Idle, gui := (a.gui.set_state "Idle").set_text "" }

def App.goto_submitting (a : App) : App :=
  { a with state := State.Submitting,
           gui := (a.gui.set_state "Listening...").set_text "" }

def App.goto_listening (a : App) : App :=
  { a with recv_audio_buffer := [], state := State.Listening,
           gui := a.gui.set_state "Ready" }

def App.display_connecting (a : App) : App :=
  { a with gui := (a.gui.set_state "Connecting...").set_text "" }

def App.goto_waiting (a : App) : App :=
  { a with state := State.Waiting,
           gui := (a.gui.set_state "Waiting...").set_text "" }

/-- The `format!("[{:.2}x]|Speaking...", speed)` display label; the f64
formatting itself is abstracted (display-only). -/
def speakingLabel (speed : ℚ) : String :=
  "[" ++ toString speed ++ "x]|Speaking..."

def App.goto_speaking (a : App) (speed : ℚ) (text : String) : App :=
  { a with state := State.Speaking false,
           gui := (a.gui.set_state (speakingLabel speed)).set_text text }

def App.trigger_interrupt (a : App) : App × List Out :=
  let v := ! a.allow_interrupt
  ({ a with allow_interrupt := v, gui := a.gui.set_allow_interrupt v }, [])

/-- `App::handle_key_up` from src/app.rs.  In `Choices`, the navigation
index moves up via `update_choice_index`; in `Listening`/`Speaking` the
volume is incremented and saturated at 5 (`vol` is a `u8`; under the 1..=5
invariant the increment cannot wrap). -/
def App.handle_key_up (a : App) : App × List Out :=
  match a.state with
  | State.Choices index =>
      let r := a.gui.update_choice_index (index + 1)
      ({ a with state := State.Choices r.2, gui := r.1 }, [])
  | State.Listening | State.Speaking _ =>
      let vol1 := a.vol + 1
      let vol2 := if vol1 > 5 then 5 else vol1
      ({ a with vol := vol2, gui := a.gui.set_volume vol2 },
       [Out.Player (PlayerEvent.VolSet vol2)])
  | _ => (a, [])

/-- `App::handle_key_down` from src/app.rs. -/
def App.handle_key_down (a : App) : App × List Out :=
  match a.state with
  | State.Choices index =>
      if index > 0 then
        let r := a.gui.update_choice_index (index - 1)
        ({ a with state := State.Choices r.2, gui := r.1 }, [])
      else (a, [])
  | State.Listening | State.Speaking _ =>
      let vol2 := if a.vol > 1 then a.vol - 1 else a.vol
      ({ a with vol := vol2, gui := a.gui.set_volume vol2 },
       [Out.Player (PlayerEvent.VolSet vol2)])
  | _ => (a, [])

/-- `App::handle_key0` from src/app.rs.  The outcome of
`Server::reconnect_with_retry(3)` (external network I/O) is the
`reconnect_ok` parameter: `true` iff one of the bounded retries succeeded. -/
def App.handle_key0 (a : App) (reconnect_ok : Bool) : App × List Out :=
  match a.state with
  | State.Listening | State.Waiting | State.Submitting => (a.goto_idle, [])
  | State.Choices index => (a.goto_waiting, [Out.Cmd (ClientCommand.Select index)])
  | State.Idle =>
      let a1 := a.display_connecting
      if reconnect_ok then
        (({ a1 with submit_state := a1.submit_state.clear }).goto_listening, [])
      else
        ({ a1 with gui := a1.gui.set_state "Connect Server Failed" }, [])
  | State.Speaking _ =>
      if reconnect_ok then
        (({ a with submit_state :=
              { a.submit_state with got_asr_result := false } }).goto_listening,
         [Out.Player PlayerEvent.ClearSpeech])
      else
        ({ a with gui := a.gui.set_state "Reconnect Server Failed" }, [])

/-- `App::handle_mic_audio` from src/app.rs.  The f32 duration counter is
modelled as an exact rational (samples are 16 kHz mono). -/
def App.handle_mic_audio (a : App) (reconnect_ok : Bool) (data : List Int) :
    App × List Out :=
  match a.state with
  | State.Listening | State.Submitting =>
      let ss1 : SubmitState :=
        { a.submit_state with
          submit_audio := a.submit_state.submit_audio + (data.length : ℚ) / 16000,
          audio_buffer := a.submit_state.audio_buffer ++ data }
      let r1 : App × List Out :=
        if a.state = State.Listening then
          (({ a with submit_state := { ss1 with got_asr_result := false } }).goto_submitting,
           [Out.Cmd ClientCommand.StartChat])
        else ({ a with submit_state := ss1 }, [])
      let a2 := r1.1
      if a2.submit_state.audio_buffer.length ≥ 8192 ∧
          a2.submit_state.submit_audio > 3/10 then
        let flushed := a2.submit_state.audio_buffer
        let a3 := { a2 with submit_state := { a2.submit_state with audio_buffer := [] } }
        let outs := r1.2 ++ [Out.AudioFrame flushed]
        if a3.submit_state.submit_audio > 10 ∧ a3.submit_state.got_asr_result = false then
          ({ a3 with vad_active := false, submit_state := a3.submit_state.clear }, outs)
        else (a3, outs)
      else (a2, r1.2)
  | State.Speaking _ =>
      if a.allow_interrupt then
        let ss1 : SubmitState :=
          { a.submit_state with
            submit_audio := a.submit_state.submit_audio + (data.length : ℚ) / 16000,
            audio_buffer := a.submit_state.audio_buffer ++ data }
        let a1 := { a with submit_state := ss1 }
        if ss1.submit_audio > 1/2 then
          if reconnect_ok then
            (({ a1 with submit_state := { ss1 with got_asr_result := false } }).goto_submitting,
             [Out.Cmd ClientCommand.StartChat, Out.Player PlayerEvent.ClearSpeech])
          else
            ({ a1 with gui := a1.gui.set_state "Reconnect Server Failed" }, [])
        else (a1, [])
      else
        ({ a with vad_active := false }, [])
  | _ => ({ a with vad_active := false }, [])

/-- `App::handle_playback_ended` from src/app.rs. -/
def App.handle_playback_ended (a : App) : App × List Out :=
  match a.state with
  | State.Speaking _ => ({ a with state := State.Speaking false }, [])
  | _ => (a, [])

/-- `App::handle_server_event` from src/app.rs.  Channel sends are the
emitted `Out` list (the send-failure logging branches do not alter the
session state). -/
def App.handle_server_event (a : App) (now : ℚ) (evt : ServerEvent) :
    App × List Out :=
  match evt with
  | ServerEvent.EndVad =>
      if a.state ≠ State.Submitting then (a, [])
      else
        (({ a with vad_active := false,
                   need_compute := a.metrics.is_timeout now,
                   submit_state := a.submit_state.clear }).goto_waiting, [])
  | ServerEvent.ASR text =>
      ({ a with submit_state := { a.submit_state with got_asr_result := true },
                gui := (a.gui.set_state "ASR").set_asr text.trim }, [])
  | ServerEvent.Action action =>
      ({ a with gui := a.gui.set_state action }, [])
  | ServerEvent.Choices message items =>
      ({ a with state := State.Choices 0, gui := a.gui.set_choices message items }, [])
  | ServerEvent.StartAudio text =>
      match a.state with
      | State.Waiting | State.Speaking _ =>
          (({ a with start_audio := true }).goto_speaking a.speed text.trim,
           [Out.Player PlayerEvent.StartSpeech])
      | _ => (a, [])
  | ServerEvent.AudioChunki16 data vowel =>
      match a.state with
      | State.Speaking _ =>
          let a1 :=
            if a.need_compute then
              let aR :=
                if a.start_audio then
                  { a with metrics := a.metrics.reset now, start_audio := false }
                else a
              { aR with metrics := aR.metrics.add_data (data.length * 2) }
            else a
          if a1.speed < 1 then
            (a1, [Out.Player (PlayerEvent.SpeechChunki16WithVowel data vowel)])
          else
            ({ a1 with recv_audio_buffer := a1.recv_audio_buffer ++ [(data, vowel)] }, [])
      | _ => (a, [])
  | ServerEvent.AudioChunk _ => (a, [])
  | ServerEvent.AudioChunkWithVowel _ _ => (a, [])
  | ServerEvent.DisplayText text =>
      ({ a with gui := a.gui.set_text text }, [])
  | ServerEvent.EndResponse =>
      if a.state ≠ State.Idle then (a.goto_listening, []) else (a, [])
  | ServerEvent.EndAudio =>
      match a.state with
      | State.Speaking _ =>
          let a1 := { a with start_audio := false }
          let flushOuts := a1.recv_audio_buffer.map
            (fun p => Out.Player (PlayerEvent.SpeechChunki16WithVowel p.1 p.2))
          let a2 := { a1 with recv_audio_buffer := [], state := State.Speaking true }
          let a3 :=
            if a2.need_compute then
              { a2 with speed := a2.metrics.speed now, need_compute := false }
            else a2
          (a3, flushOuts ++ [Out.Player PlayerEvent.EndSpeech])
      | _ => (a, [])
  | ServerEvent.HelloStart =>
      if a.set_hello then (a, []) else ({ a with hello_wav := [] }, [])
  | ServerEvent.HelloChunk data =>
      if a.set_hello then (a, [])
      else ({ a with hello_wav := a.hello_wav ++ data }, [])
  | ServerEvent.HelloEnd =>
      if a.set_hello then (a, [])
      else ({ a with hello_wav := [] }, [Out.Player (PlayerEvent.SetHello a.hello_wav)])
  | ServerEvent.HasNotification =>
      if a.state = State.Idle then
        ({ a with gui := a.gui.set_state "Notification" }, [])
      else (a, [])
  | ServerEvent.StartVideo => (a, [])
  | ServerEvent.EndVideo => (a, [])

/-- The `Event` enum from src/app.rs; the `&'static str` sub-events are
strings. -/
inductive Event
  | Evt (s : String)
  | ServerEvt (e : ServerEvent)
  | MicAudioChunk (data : List Int)
  | MicAudioEnd
  | Vowel (v : Nat)
  | PlaybackEnded
  | ServerUrl (url : String)
  deriving DecidableEq

/-- The event dispatch of `main_work`'s loop (src/app.rs).  Parameters:
`voice_interrupt` is the `voice_interrupt` cargo feature, `reconnect_ok`
the outcome of any reconnect attempted during the step, `now` the current
instant, `server_url` the current server URL (a differing `ServerUrl`
event rebuilds the transport and returns to idle). -/
def App.step (a : App) (voice_interrupt reconnect_ok : Bool) (now : ℚ)
    (server_url : String) : Event → App × List Out
  | Event.Evt s =>
      if s = "k0" then a.handle_key0 reconnect_ok
      else if s = "k0_" then
        (if voice_interrupt then a.trigger_interrupt else (a, []))
      else if s = "vol_up" then a.handle_key_up
      else if s = "vol_down" then a.handle_key_down
      else if s = "yes" ∨ s = "k1" then (a, [])
      else if s = "idle" then (a.goto_idle, [])
      else (a, [])
  | Event.Vowel v => ({ a with gui := a.gui.set_avatar_index v }, [])
  | Event.MicAudioChunk data => a.handle_mic_audio reconnect_ok data
  | Event.MicAudioEnd => (a, [])
  | Event.PlaybackEnded => a.handle_playback_ended
  | Event.ServerEvt e => a.handle_server_event now e
  | Event.ServerUrl url =>
      if url ≠ server_url then (({ a with set_hello := false }).goto_idle, []) else (a, [])

/-- The `App` value built at the top of `main_work` (src/app.rs); the
initial `VAD_ACTIVE` atomic is not part of this snapshot and is taken as
`false` (no claim depends on it). -/
def App.init (now : ℚ) (gui : ChatUI) : App :=
  { state := State.Idle
    submit_state :=
      { submit_audio := 0, start_submit := false, audio_buffer := [],
        got_asr_result := false }
    recv_audio_buffer := []
    gui := gui
    vol := 3
    hello_wav := []
    set_hello := false
    metrics := Metrics.new now
    need_compute := true
    start_audio := false
    speed := 1/2
    allow_interrupt := false
    vad_active := false }

/-! ## Output observations -/

/-- Whether an orchestrator output requests hello playback. -/
def isHelloReq : Out → Bool
  | Out.Player (PlayerEvent.Hello _) => true
  | _ => false

/-- Number of hello-playback requests among the outputs. -/
def countHello (outs : List Out) : Nat := (outs.filter isHelloReq).length

/-- Whether an output is an outbound audio frame to the server. -/
def isAudioFrame : Out → Bool
  | Out.AudioFrame _ => true
  | _ => false

/-- Number of outbound audio frames among the outputs. -/
def countAudioFrames (outs : List Out) : Nat := (outs.filter isAudioFrame).length

/-- Number of `StartChat` commands among the outputs. -/
def countStartChat (outs : List Out) : Nat :=
  (outs.filter fun o => decide (o = Out.Cmd ClientCommand.StartChat)).length

/-- `ChatUI::new` defaults from src/boards/atom_box.rs (the avatar argument
reduced to whether its image data is non-empty). -/
def ChatUI.new (avatar_nonempty : Bool) : ChatUI :=
  { state_text := "", state_volume := 5, state_allow_interrupt := true,
    asr_text := "", content := ChatMainArea.Content "",
    avatar_index := 0, avatar_nonempty := avatar_nonempty }

/-! ## Send-buffer dequeue lemmas -/

theorem get_chunk_no_marker (q : List SendBufferItem) :
    ∀ s, (get_chunk q).item ≠ some (SendBufferItem.EndSpeech s) := by
  induction q with
  | nil => intro s; simp [get_chunk]
  | cons hd tl ih =>
    intro s
    cases hd with
    | Vowel v => simp [get_chunk]
    | Audio a => simp [get_chunk]
    | EndSpeech sig => simpa [get_chunk] using ih s

theorem get_chunk_find (q : List SendBufferItem) :
    (get_chunk q).item = q.find? (fun it => ! isMarker it) := by
  induction q with
  | nil => simp [get_chunk]
  | cons hd tl ih =>
    cases hd with
    | Vowel v => simp [get_chunk, List.find?, isMarker]
    | Audio a => simp [get_chunk, List.find?, isMarker]
    | EndSpeech sig => simpa [get_chunk, List.find?, isMarker] using ih

theorem get_chunk_markers (q : List SendBufferItem) :
    markersOf q = (get_chunk q).signaled ++ markersOf (get_chunk q).queue := by
  induction q with
  | nil => simp [get_chunk, markersOf]
  | cons hd tl ih =>
    cases hd with
    | Vowel v => simp [get_chunk, markersOf]
    | Audio a => simp [get_chunk, markersOf]
    | EndSpeech sig =>
      simp only [get_chunk, markersOf, List.filterMap_cons]
      simpa [markersOf] using ih

theorem clearSignals_eq_markersOf (q : List SendBufferItem) :
    clearSignals q = markersOf q := by
  induction q with
  | nil => simp [clearSignals, markersOf]
  | cons hd tl ih =>
    cases hd <;> simpa [clearSignals, markersOf] using ih

/-! ## Claim theorems -/

/-- C1, counterexample: a binary frame whose payload does not decode as a
`ServerEvent` tagged record makes the `ws_manager` receive loop `continue`
(the frame is dropped); it does not exit with an error, contradicting the
claim that such a frame is a hard error terminating the connection
attempt. -/
theorem c1_counterexample :
    ws.recvStep (fun _ => none) true true
        (some (Except.ok (ws.WsMessage.binaryFrame none)))
        = ws.LoopOutcome.continueLoop ∧
    ws.LoopOutcome.continueLoop ≠ ws.LoopOutcome.exitErr ∧
    ws.LoopOutcome.continueLoop ≠ ws.LoopOutcome.exitOk :=
  ⟨rfl, by decide, by decide⟩

/-- C1, amended: for every inbound binary frame on the duplex transport
that does not decode as a `ServerEvent` tagged record, the decode failure
is logged and the frame dropped, and the transport receive loop continues
on the same connection — whatever the opus decoder and the outcomes of
the loop's fallible reset/send calls would be — so the non-conforming
frame never terminates the current connection attempt. -/
theorem c1_amended_decode_failure_drops_frame :
    ∀ (opusDecode : List Nat → Option (List Int)) (resetOk sendOk : Bool),
      ws.recvStep opusDecode resetOk sendOk
          (some (Except.ok (ws.WsMessage.binaryFrame none)))
          = ws.LoopOutcome.continueLoop :=
  fun _ _ _ => rfl

/-- C4: every completion marker that leaves the playback send-buffer queue
is signaled exactly once: `get_chunk` never returns an `EndSpeech` marker,
it returns the first non-marker entry, the markers of the queue are exactly
the ones it signals plus the ones still pending, and `clear` empties the
queue while signaling every pending marker. -/
theorem c4_completion_markers_always_signaled (b : SendBuffer) :
    (∀ s, (get_chunk b.cache).item ≠ some (SendBufferItem.EndSpeech s)) ∧
    (get_chunk b.cache).item = b.cache.find? (fun it => ! isMarker it) ∧
    markersOf b.cache
      = (get_chunk b.cache).signaled ++ markersOf (get_chunk b.cache).queue ∧
    b.clear.1.cache = [] ∧
    b.clear.2 = markersOf b.cache :=
  ⟨get_chunk_no_marker b.cache, get_chunk_find b.cache, get_chunk_markers b.cache,
   rfl, clearSignals_eq_markersOf b.cache⟩

/-- Truncating division by a divisor of larger magnitude gives a result of
smaller or equal magnitude. -/
theorem natAbs_tdiv_mono (s : ℤ) {m n : ℤ} (h : n.natAbs ≤ m.natAbs)
    (hn : 0 < n.natAbs) : (Int.tdiv s m).natAbs ≤ (Int.tdiv s n).natAbs := by
  rw [Int.natAbs_tdiv, Int.natAbs_tdiv]
  exact Nat.div_le_div_left h hn

/-- C8: `get_volume` is monotone in the discrete volume level: for every
i16 sample and levels `l1 ≤ l2` in 0..=5, the scaled magnitude at `l1` is
at most the scaled magnitude at `l2` (truncating i16 division halves
magnitudes, so |s/16| ≤ |s/8| ≤ |s/4| ≤ |s/2| ≤ |s|, including negative
samples). -/
theorem c8_volume_scaling_monotone (s l1 l2 : ℤ)
    (hs1 : -32768 ≤ s) (hs2 : s ≤ 32767)
    (h0 : 0 ≤ l1) (h12 : l1 ≤ l2) (h25 : l2 ≤ 5) :
    (get_volume s l1).natAbs ≤ (get_volume s l2).natAbs := by
  have h15 : l1 ≤ 5 := le_trans h12 h25
  have h02 : 0 ≤ l2 := le_trans h0 h12
  interval_cases l1 <;> interval_cases l2 <;>
    norm_num [get_volume] <;>
    first
      | exact Nat.le_refl _
      | exact Nat.div_le_div_left (by norm_num) (by norm_num)
      | exact Nat.div_le_self _ _

/-- C8 witness: the monotonicity theorem applied at sample −1000 and
levels 1 ≤ 4. -/
theorem c8_volume_scaling_monotone_witness :
    (get_volume (-1000) 1).natAbs ≤ (get_volume (-1000) 4).natAbs :=
  c8_volume_scaling_monotone (-1000) 1 4 (by norm_num) (by norm_num)
    (by norm_num) (by norm_num) (by norm_num)

/-- C10: with a non-empty choices list of length n, `update_choice_index i`
returns and stores `min i (n-1)`; with an empty choices list — which the
`Choices` server event can produce, since `set_choices` accepts an empty
item list — the `choices.len() - 1` usize subtraction underflows and the
wrapped value `2^64 - 1` is produced instead of a clamped index. -/
theorem c10_update_choice_index_clamps (ui : ChatUI) (i sel : Nat) (q : String)
    (cs : List String) (hc : ui.content = ChatMainArea.Choices sel q cs)
    (hlen : cs.length < USIZE) :
    (cs ≠ [] →
      (ui.update_choice_index i).2 = min i (cs.length - 1) ∧
      (ui.update_choice_index i).1.content
        = ChatMainArea.Choices (min i (cs.length - 1)) q cs) ∧
    (cs = [] → (ui.update_choice_index i).2 = USIZE - 1) ∧
    (∀ (a : App) (now : ℚ) (msg : String),
      (a.handle_server_event now (ServerEvent.Choices msg [])).1.gui.content
        = ChatMainArea.Choices 0 msg []) := by
  refine ⟨?_, ?_, ?_⟩
  · intro hne
    have hpos : 0 < cs.length := List.length_pos.mpr hne
    by_cases hge : cs.length ≤ i
    · have hmod : (cs.length + USIZE - 1) % USIZE = cs.length - 1 := by
        have h1 : cs.length + USIZE - 1 = (cs.length - 1) + USIZE := by omega
        rw [h1, Nat.add_mod_right, Nat.mod_eq_of_lt (by omega)]
      have hmin : min i (cs.length - 1) = cs.length - 1 := by omega
      simp [ChatUI.update_choice_index, hc, hge, hmod, hmin]
    · have hmin : min i (cs.length - 1) = i := by omega
      simp [ChatUI.update_choice_index, hc, hge, hmin]
  · intro hnil
    subst hnil
    simp [ChatUI.update_choice_index, hc, USIZE]
  · intro a now msg
    simp [App.handle_server_event, ChatUI.set_choices]

/-- C10 witness: clamping at a two-element list with an oversized index. -/
theorem c10_update_choice_index_clamps_witness :
    (((ChatUI.new false).set_choices "q" ["a", "b"]).update_choice_index 7).2
      = min 7 1 := by
  have h := c10_update_choice_index_clamps
    ((ChatUI.new false).set_choices "q" ["a", "b"]) 7 0 "q" ["a", "b"]
    (by rfl) (by norm_num [USIZE])
  simpa using (h.1 (by simp)).1

/-- C6, counterexample: from `Idle`, a button press whose reconnect
succeeds goes directly to `Listening` with zero hello-playback requests —
not after exactly one hello-completion signal as claimed (no
`AudioEvent::Hello` is ever sent by `handle_key0`). -/
theorem c6_counterexample :
    (((App.init 0 (ChatUI.new false)).goto_idle.handle_key0 true).1.state
        = State.Listening) ∧
    countHello ((App.init 0 (ChatUI.new false)).goto_idle.handle_key0 true).2 = 0 ∧
    (0 : Nat) ≠ 1 :=
  ⟨rfl, rfl, by decide⟩

/-- C6, amended: from `Idle`, a button press whose transport reconnect
succeeds brings the session directly to `Listening`, requesting no hello
playback (zero hello-completion signals) and emitting no output; a button
press whose reconnect attempts all fail leaves the session state at
`Idle`. -/
theorem c6_idle_button_press (a : App) (rc : Bool) (h : a.state = State.Idle) :
    (rc = true →
      (a.handle_key0 rc).1.state = State.Listening ∧
      countHello (a.handle_key0 rc).2 = 0 ∧ (a.handle_key0 rc).2 = []) ∧
    (rc = false →
      (a.handle_key0 rc).1.state = State.Idle ∧ (a.handle_key0 rc).2 = []) := by
  constructor
  · intro hrc
    subst hrc
    simp [App.handle_key0, h, App.display_connecting, App.goto_listening, countHello]
  · intro hrc
    subst hrc
    simp [App.handle_key0, h, App.display_connecting]

/-- C6 witness: the amended theorem applied to the freshly initialized app
(which is in `Idle`), for both reconnect outcomes. -/
theorem c6_idle_button_press_witness :
    ((App.init 0 (ChatUI.new false)).goto_idle.handle_key0 true).1.state
      = State.Listening ∧
    ((App.init 0 (ChatUI.new false)).goto_idle.handle_key0 false).1.state
      = State.Idle :=
  ⟨((c6_idle_button_press ((App.init 0 (ChatUI.new false)).goto_idle) true rfl).1
      rfl).1,
   ((c6_idle_button_press ((App.init 0 (ChatUI.new false)).goto_idle) false rfl).2
      rfl).1⟩

/-- C5, counterexample: in `Submitting` with 10 s already accumulated, no
ASR acknowledgement, and a chunk completing ≥8192 buffered samples, the
utterance is aborted (SubmitState cleared) — but the session state stays
`Submitting`; it does not return to `Listening` as claimed. -/
theorem c5_counterexample :
    (({ App.init 0 (ChatUI.new false) with
          state := State.Submitting,
          submit_state :=
            { submit_audio := 10, start_submit := false, audio_buffer := [],
              got_asr_result := false } } : App).handle_mic_audio true
        (List.replicate 8192 0)).1.state = State.Submitting ∧
    (({ App.init 0 (ChatUI.new false) with
          state := State.Submitting,
          submit_state :=
            { submit_audio := 10, start_submit := false, audio_buffer := [],
              got_asr_result := false } } : App).handle_mic_audio true
        (List.replicate 8192 0)).1.submit_state
      = { submit_audio := 0, start_submit := false, audio_buffer := [],
          got_asr_result := false } ∧
    State.Submitting ≠ State.Listening := by
  have hne : State.Submitting ≠ State.Listening := by decide
  refine ⟨?_, ?_, hne⟩ <;>
    norm_num [App.handle_mic_audio, SubmitState.clear, hne]

/-- C5, amended: if while submitting an utterance the accumulated duration
exceeds 10 s with no ASR acknowledgement, then — on the mic chunk whose
flush condition (buffer ≥ 8192 samples) is met — the utterance is aborted:
SubmitState is cleared and the VAD-active flag is dropped, without
terminating the program; the session state, however, remains `Submitting`
rather than returning to `Listening`. -/
theorem c5_stuck_turn_abort (a : App) (rc : Bool) (data : List Int)
    (hst : a.state = State.Submitting)
    (hasr : a.submit_state.got_asr_result = false)
    (hlen : 8192 ≤ a.submit_state.audio_buffer.length + data.length)
    (hdur : 10 < a.submit_state.submit_audio + (data.length : ℚ) / 16000) :
    (a.handle_mic_audio rc data).1.state = State.Submitting ∧
    (a.handle_mic_audio rc data).1.submit_state
      = { submit_audio := 0, start_submit := false, audio_buffer := [],
          got_asr_result := false } ∧
    (a.handle_mic_audio rc data).1.vad_active = false ∧
    countAudioFrames (a.handle_mic_audio rc data).2 = 1 := by
  have hlen' : 8192 ≤ (a.submit_state.audio_buffer ++ data).length := by
    simpa [List.length_append] using hlen
  have hdur3 : (3 : ℚ)/10 < a.submit_state.submit_audio + (data.length : ℚ) / 16000 :=
    lt_trans (by norm_num) hdur
  have hne : State.Submitting ≠ State.Listening := by decide
  simp [App.handle_mic_audio, hst, hasr, hlen, hlen', hdur3, hdur, hne, SubmitState.clear,
    countAudioFrames, isAudioFrame]

/-- C5 witness: the amended theorem applied to a concrete `Submitting` app
with 10 s accumulated and an 8192-sample chunk. -/
theorem c5_stuck_turn_abort_witness :
    (({ App.init 0 (ChatUI.new false) with
          state := State.Submitting,
          submit_state :=
            { submit_audio := 10, start_submit := false, audio_buffer := [],
              got_asr_result := false } } : App).handle_mic_audio false
        (List.replicate 8192 0)).1.state = State.Submitting :=
  (c5_stuck_turn_abort _ false (List.replicate 8192 0) rfl rfl
    (by simp only [List.length_nil, List.length_replicate]; omega)
    (by norm_num)).1

/-- C2, counterexample: 0.35 s of speech (5,600 samples, a single mic
chunk) received while `Listening` produces exactly one `StartChat` and NO
outbound audio frame (the flush needs ≥ 8192 buffered samples), refuting
the claimed "one StartChat followed by one audio frame of ≥8,192 samples";
the state does end as `Submitting`. -/
theorem c2_counterexample :
    (({ App.init 0 (ChatUI.new false) with state := State.Listening } : App).handle_mic_audio
        true (List.replicate 5600 0)).2 = [Out.Cmd ClientCommand.StartChat] ∧
    countAudioFrames
      (({ App.init 0 (ChatUI.new false) with state := State.Listening } : App).handle_mic_audio
          true (List.replicate 5600 0)).2 = 0 ∧
    (({ App.init 0 (ChatUI.new false) with state := State.Listening } : App).handle_mic_audio
        true (List.replicate 5600 0)).1.state = State.Submitting := by
  refine ⟨?_, ?_, ?_⟩ <;>
    norm_num [App.handle_mic_audio, App.goto_submitting, App.init,
      countAudioFrames, isAudioFrame]

/-- C2, amended: in `Listening`/`Submitting` every mic chunk is accumulated
into SubmitState (duration counter and sample buffer); the first chunk in
`Listening` sends exactly one `StartChat` and moves the state to
`Submitting`; an audio frame — the entire accumulated buffer — is flushed
to the transport only once the buffer holds ≥ 8192 samples (0.512 s of
16 kHz audio) and the accumulated duration exceeds 0.3 s; in particular
0.35 s (5,600 samples) received while `Listening` produces one `StartChat`
and no audio frame, with the state ending as `Submitting`. -/
theorem c2_mic_audio_accumulate_and_flush (a : App) (rc : Bool) (data : List Int)
    (h : a.state = State.Listening ∨ a.state = State.Submitting) :
    countStartChat (a.handle_mic_audio rc data).2
      = (if a.state = State.Listening then 1 else 0) ∧
    (a.handle_mic_audio rc data).1.state = State.Submitting ∧
    countAudioFrames (a.handle_mic_audio rc data).2
      = (if 8192 ≤ a.submit_state.audio_buffer.length + data.length ∧
            (3 : ℚ)/10 < a.submit_state.submit_audio + (data.length : ℚ) / 16000
         then 1 else 0) ∧
    (8192 ≤ a.submit_state.audio_buffer.length + data.length ∧
        (3 : ℚ)/10 < a.submit_state.submit_audio + (data.length : ℚ) / 16000 →
      Out.AudioFrame (a.submit_state.audio_buffer ++ data)
        ∈ (a.handle_mic_audio rc data).2) ∧
    (¬(8192 ≤ a.submit_state.audio_buffer.length + data.length ∧
        (3 : ℚ)/10 < a.submit_state.submit_audio + (data.length : ℚ) / 16000) →
      (a.handle_mic_audio rc data).1.submit_state.audio_buffer
          = a.submit_state.audio_buffer ++ data ∧
      (a.handle_mic_audio rc data).1.submit_state.submit_audio
          = a.submit_state.submit_audio + (data.length : ℚ) / 16000) := by
  have hne : State.Submitting ≠ State.Listening := by decide
  rcases h with h | h <;>
    by_cases hc : 8192 ≤ a.submit_state.audio_buffer.length + data.length ∧
        (3 : ℚ)/10 < a.submit_state.submit_audio + (data.length : ℚ) / 16000 <;>
      (refine ⟨?_, ?_, ?_, ?_, ?_⟩ <;>
        simp [App.handle_mic_audio, h, hc, hne, App.goto_submitting, countStartChat,
          countAudioFrames, isAudioFrame, List.length_append] <;>
        (try split) <;>
        simp_all [SubmitState.clear, countStartChat, countAudioFrames, isAudioFrame])

/-- C2 witness: the amended theorem applied to a `Listening` app receiving
a single 5,600-sample chunk. -/
theorem c2_mic_audio_accumulate_and_flush_witness :
    countStartChat
      (({ App.init 0 (ChatUI.new false) with state := State.Listening } : App).handle_mic_audio
          true (List.replicate 5600 0)).2 = 1 := by
  have h := c2_mic_audio_accumulate_and_flush
    ({ App.init 0 (ChatUI.new false) with state := State.Listening } : App)
    true (List.replicate 5600 0) (Or.inl rfl)
  exact h.1.trans (if_pos rfl)

/-- C3: the adaptive streaming policy in `Speaking`: with
`speed < 1.0` every inbound `AudioChunki16` is forwarded to the playback
send-buffer immediately and nothing is accumulated; with `speed ≥ 1.0`
every chunk is appended to the receive buffer and nothing is forwarded;
at `EndAudio` all accumulated chunks are flushed in order as one block,
followed by the end-of-speech marker, leaving the buffer empty. -/
theorem c3_adaptive_streaming (a : App) (now : ℚ) (data : List Int) (vowel : Nat)
    (bs : Bool) (h : a.state = State.Speaking bs) :
    (a.speed < 1 →
      (a.handle_server_event now (ServerEvent.AudioChunki16 data vowel)).2
          = [Out.Player (PlayerEvent.SpeechChunki16WithVowel data vowel)] ∧
      (a.handle_server_event now (ServerEvent.AudioChunki16 data vowel)).1.recv_audio_buffer
          = a.recv_audio_buffer) ∧
    (1 ≤ a.speed →
      (a.handle_server_event now (ServerEvent.AudioChunki16 data vowel)).2 = [] ∧
      (a.handle_server_event now (ServerEvent.AudioChunki16 data vowel)).1.recv_audio_buffer
          = a.recv_audio_buffer ++ [(data, vowel)]) ∧
    ((a.handle_server_event now ServerEvent.EndAudio).2
        = a.recv_audio_buffer.map
            (fun p => Out.Player (PlayerEvent.SpeechChunki16WithVowel p.1 p.2))
          ++ [Out.Player PlayerEvent.EndSpeech] ∧
     (a.handle_server_event now ServerEvent.EndAudio).1.recv_audio_buffer = []) := by
  refine ⟨?_, ?_, ?_⟩
  · intro hsp
    cases hnc : a.need_compute <;> cases hsa : a.start_audio <;>
      simp [App.handle_server_event, h, hsp, hnc, hsa, Metrics.reset, Metrics.add_data]
  · intro hsp
    have hns : ¬ a.speed < 1 := not_lt.mpr hsp
    cases hnc : a.need_compute <;> cases hsa : a.start_audio <;>
      simp [App.handle_server_event, h, hns, hnc, hsa, Metrics.reset, Metrics.add_data]
  · cases hnc : a.need_compute <;>
      constructor <;> simp [App.handle_server_event, h, hnc]

/-- C3 witness: the streaming theorem applied to a concrete `Speaking` app
(whose initial speed estimate is 0.5 < 1). -/
theorem c3_adaptive_streaming_witness :
    (({ App.init 0 (ChatUI.new false) with
          state := State.Speaking false } : App).handle_server_event 0
        (ServerEvent.AudioChunki16 [7] 2)).2
      = [Out.Player (PlayerEvent.SpeechChunki16WithVowel [7] 2)] := by
  have h := c3_adaptive_streaming
    ({ App.init 0 (ChatUI.new false) with state := State.Speaking false } : App)
    0 [7] 2 false rfl
  exact (h.1 (by norm_num [App.init])).1

/-! ## Volume-invariant helper lemmas -/

theorem handle_key_up_vol_bounds (a : App) (h1 : 1 ≤ a.vol) (h5 : a.vol ≤ 5) :
    1 ≤ a.handle_key_up.1.vol ∧ a.handle_key_up.1.vol ≤ 5 := by
  cases hs : a.state <;>
    simp [App.handle_key_up, hs] <;>
    (repeat' split) <;>
    (try simp) <;> omega

theorem handle_key_down_vol_bounds (a : App) (h1 : 1 ≤ a.vol) (h5 : a.vol ≤ 5) :
    1 ≤ a.handle_key_down.1.vol ∧ a.handle_key_down.1.vol ≤ 5 := by
  cases hs : a.state <;>
    simp [App.handle_key_down, hs] <;>
    (repeat' split) <;>
    (try simp) <;> omega

theorem handle_key0_vol (a : App) (rc : Bool) : (a.handle_key0 rc).1.vol = a.vol := by
  cases hs : a.state <;> cases rc <;>
    simp [App.handle_key0, hs, App.goto_idle, App.goto_waiting, App.goto_listening,
      App.display_connecting]

theorem handle_mic_audio_vol (a : App) (rc : Bool) (data : List Int) :
    (a.handle_mic_audio rc data).1.vol = a.vol := by
  cases hs : a.state <;>
    simp [App.handle_mic_audio, hs, App.goto_submitting] <;>
    (repeat' split) <;>
    simp [App.goto_submitting]

theorem handle_server_event_vol (a : App) (now : ℚ) (evt : ServerEvent) :
    (a.handle_server_event now evt).1.vol = a.vol := by
  cases evt <;>
    cases hs : a.state <;>
      simp [App.handle_server_event, hs, App.goto_waiting, App.goto_listening,
        App.goto_speaking, App.goto_idle] <;>
      (repeat' split) <;>
      simp [App.goto_waiting]

theorem handle_playback_ended_vol (a : App) : a.handle_playback_ended.1.vol = a.vol := by
  cases hs : a.state <;> simp [App.handle_playback_ended, hs]

/-- C9: the orchestrator's volume level is initialized at 3 and stays in
1..=5: volume-up saturates at 5, volume-down only decrements above 1, and
no other event the state machine handles writes the counter — so the `u8`
can neither overflow past 5 nor reach 0. -/
theorem c9_volume_invariant :
    (∀ (now : ℚ) (gui : ChatUI),
      (App.init now gui).vol = 3 ∧ (App.init now gui).goto_idle.vol = 3) ∧
    (∀ (a : App) (vi rc : Bool) (now : ℚ) (url : String) (e : Event),
      1 ≤ a.vol → a.vol ≤ 5 →
      1 ≤ (a.step vi rc now url e).1.vol ∧ (a.step vi rc now url e).1.vol ≤ 5) := by
  refine ⟨fun now gui => ⟨rfl, rfl⟩, ?_⟩
  intro a vi rc now url e h1 h5
  cases e with
  | Evt s =>
      simp only [App.step]
      split_ifs
      all_goals
        first
          | (rw [handle_key0_vol]; omega)
          | exact handle_key_up_vol_bounds a h1 h5
          | exact handle_key_down_vol_bounds a h1 h5
          | (simp [App.trigger_interrupt]; omega)
          | (simp [App.goto_idle]; omega)
          | (simp only []; omega)
          | (constructor <;> simpa using by omega)
  | ServerEvt evt =>
      simp only [App.step]
      rw [handle_server_event_vol]; omega
  | MicAudioChunk data =>
      simp only [App.step]
      rw [handle_mic_audio_vol]; omega
  | MicAudioEnd => simp only [App.step]; omega
  | Vowel v => simp [App.step]; omega
  | PlaybackEnded =>
      simp only [App.step]
      rw [handle_playback_ended_vol]; omega
  | ServerUrl url' =>
      simp only [App.step]
      split <;> simp [App.goto_idle] <;> omega

/-- C9 witness: the invariant theorem applied to the freshly initialized
app (volume 3) receiving a volume-up button event. -/
theorem c9_volume_invariant_witness :
    1 ≤ (((App.init 0 (ChatUI.new false)).goto_idle.step true true 0 ""
        (Event.Evt "vol_up")).1.vol) ∧
    (((App.init 0 (ChatUI.new false)).goto_idle.step true true 0 ""
        (Event.Evt "vol_up")).1.vol) ≤ 5 :=
  c9_volume_invariant.2 ((App.init 0 (ChatUI.new false)).goto_idle) true true 0 ""
    (Event.Evt "vol_up") (by norm_num [App.init, App.goto_idle])
    (by norm_num [App.init, App.goto_idle])

/-! ## Send-buffer repacking invariant (claim C7) -/

/-- One push call on the send buffer (byte or native-sample input). -/
inductive PushOp
  | i16 (data : List Int)
  | u8 (data : List Nat)

/-- The samples a push feeds in: native samples directly, bytes through the
little-endian pair decoding the source performs. -/
def opSamples : PushOp → List Int
  | PushOp.i16 d => d
  | PushOp.u8 d => decodePairs d

def applyOp (b : SendBuffer) : PushOp → SendBuffer
  | PushOp.i16 d => b.push_i16 d
  | PushOp.u8 d => b.push_u8 d

/-- All samples fed by a sequence of pushes, in order. -/
def inputSamples (ops : List PushOp) : List Int := (ops.map opSamples).join

/-- Concatenation of the `Audio` entries of a queue, in order. -/
def audioConcat : List SendBufferItem → List Int
  | [] => []
  | SendBufferItem.Audio a :: q => a ++ audioConcat q
  | _ :: q => audioConcat q

theorem audioConcat_append (q1 q2 : List SendBufferItem) :
    audioConcat (q1 ++ q2) = audioConcat q1 ++ audioConcat q2 := by
  induction q1 with
  | nil => simp [audioConcat]
  | cons hd tl ih => cases hd <;> simp [audioConcat, ih]

theorem decodePairs_length : ∀ d : List Nat, (decodePairs d).length = d.length / 2
  | [] => by simp [decodePairs]
  | [x] => by simp [decodePairs]
  | lo :: hi :: rest => by
      simp [decodePairs, decodePairs_length rest]
      omega

theorem decodePairs_take : ∀ (d : List Nat) (n : Nat),
    decodePairs (d.take (2 * n)) = (decodePairs d).take n
  | _, 0 => by simp [decodePairs]
  | [], n + 1 => by simp [decodePairs]
  | [x], n + 1 => by
      have h2 : 2 * (n + 1) = 1 + (2 * n + 1) := by ring
      simp [h2, decodePairs]
  | lo :: hi :: rest, n + 1 => by
      have h2 : 2 * (n + 1) = 2 * n + 1 + 1 := by ring
      rw [h2, List.take_succ_cons, List.take_succ_cons, decodePairs, decodePairs,
        decodePairs_take rest n]
      simp [List.take_succ_cons]

theorem decodePairs_drop : ∀ (d : List Nat) (n : Nat),
    decodePairs (d.drop (2 * n)) = (decodePairs d).drop n
  | _, 0 => by simp
  | [], n + 1 => by simp [decodePairs]
  | [x], n + 1 => by
      have h2 : 2 * (n + 1) = 1 + (2 * n + 1) := by ring
      simp [h2, decodePairs]
  | lo :: hi :: rest, n + 1 => by
      have h2 : 2 * (n + 1) = 2 * n + 1 + 1 := by ring
      rw [h2, List.drop_succ_cons, List.drop_succ_cons, decodePairs,
        decodePairs_drop rest n]
      simp [List.drop_succ_cons]

/-- The chunks loop on an empty carry: it appends exactly the full
volume-scaled chunks of `data` to the cache and leaves the trailing
`data.length % chunk_size` samples as the new carry. -/
theorem chunksLoopI16_spec : ∀ (n : Nat) (b : SendBuffer) (data : List Int),
    data.length ≤ n → 0 < b.chunk_size → b.rest = [] →
    (chunksLoopI16 b data).chunk_size = b.chunk_size ∧
    (chunksLoopI16 b data).volume = b.volume ∧
    (∃ newItems,
      (chunksLoopI16 b data).cache = b.cache ++ newItems ∧
      (∀ it ∈ newItems, ∃ a, it = SendBufferItem.Audio a ∧ a.length = b.chunk_size) ∧
      audioConcat newItems
        = (data.take (data.length - data.length % b.chunk_size)).map
            (fun x => get_volume x b.volume)) ∧
    (chunksLoopI16 b data).rest
      = data.drop (data.length - data.length % b.chunk_size) := by
  intro n
  induction n with
  | zero =>
    intro b data hn hcs hrest
    have hd : data = [] := List.length_eq_zero.mp (Nat.le_zero.mp hn)
    subst hd
    rw [chunksLoopI16, dif_neg hcs.ne', dif_pos (by simp)]
    exact ⟨rfl, rfl, ⟨[], by simp, by simp, by simp [audioConcat]⟩, by simp [hrest]⟩
  | succ n ih =>
    intro b data hn hcs hrest
    by_cases h0 : data.length = 0
    · have hd : data = [] := List.length_eq_zero.mp h0
      subst hd
      rw [chunksLoopI16, dif_neg hcs.ne', dif_pos h0]
      exact ⟨rfl, rfl, ⟨[], by simp, by simp, by simp [audioConcat, h0]⟩,
        by simp [hrest, h0]⟩
    · by_cases hs : data.length < b.chunk_size
      · rw [chunksLoopI16, dif_neg hcs.ne', dif_neg h0, dif_pos hs]
        have hm : data.length % b.chunk_size = data.length := Nat.mod_eq_of_lt hs
        refine ⟨rfl, rfl, ⟨[], by simp, by simp, by simp [audioConcat, hm]⟩, ?_⟩
        simp [hm]
      · rw [chunksLoopI16, dif_neg hcs.ne', dif_neg h0, dif_neg hs]
        have hcs_le : b.chunk_size ≤ data.length := le_of_not_lt hs
        have hlen1 : (data.drop b.chunk_size).length ≤ n := by
          simp only [List.length_drop]; omega
        obtain ⟨hC, hV, ⟨items, hcache, hall, hconcat⟩, hrest'⟩ :=
          ih { b with cache := b.cache ++
                [SendBufferItem.Audio
                  ((data.take b.chunk_size).map (fun x => get_volume x b.volume))] }
            (data.drop b.chunk_size) hlen1 hcs hrest
        have hmod : data.length % b.chunk_size
            = (data.length - b.chunk_size) % b.chunk_size := by
          conv_lhs => rw [← Nat.sub_add_cancel hcs_le]
          rw [Nat.add_mod_right]
        have hdroplen : (data.drop b.chunk_size).length = data.length - b.chunk_size :=
          List.length_drop _ _
        have hmodle : (data.length - b.chunk_size) % b.chunk_size
            ≤ data.length - b.chunk_size := Nat.mod_le _ _
        have harith : b.chunk_size +
            ((data.length - b.chunk_size) -
              (data.length - b.chunk_size) % b.chunk_size)
            = data.length - data.length % b.chunk_size := by omega
        refine ⟨hC, hV,
          ⟨SendBufferItem.Audio
              ((data.take b.chunk_size).map (fun x => get_volume x b.volume)) :: items,
            ?_, ?_, ?_⟩, ?_⟩
        · rw [hcache]; simp
        · intro it hit
          rcases List.mem_cons.mp hit with hit | hit
          · exact ⟨_, hit, by
              simp [List.length_take, Nat.min_eq_left hcs_le]⟩
          · exact hall it hit
        · rw [audioConcat, hconcat, hdroplen, ← List.map_append, ← List.take_add,
            harith]
        · rw [hrest', hdroplen, List.drop_drop]
          congr 1

/-- The byte-chunks loop on an empty carry: it appends exactly the full
volume-scaled chunks of the decoded samples of `data` to the cache and
leaves the trailing decoded samples as the new carry. -/
theorem chunksLoopU8_spec : ∀ (n : Nat) (b : SendBuffer) (data : List Nat),
    data.length ≤ n → 0 < b.chunk_size → b.rest = [] →
    (chunksLoopU8 b data).chunk_size = b.chunk_size ∧
    (chunksLoopU8 b data).volume = b.volume ∧
    (∃ newItems,
      (chunksLoopU8 b data).cache = b.cache ++ newItems ∧
      (∀ it ∈ newItems, ∃ a, it = SendBufferItem.Audio a ∧ a.length = b.chunk_size) ∧
      audioConcat newItems
        = ((decodePairs data).take
            ((decodePairs data).length
              - (decodePairs data).length % b.chunk_size)).map
            (fun x => get_volume x b.volume)) ∧
    (chunksLoopU8 b data).rest
      = (decodePairs data).drop
          ((decodePairs data).length - (decodePairs data).length % b.chunk_size) := by
  intro n
  induction n with
  | zero =>
    intro b data hn hcs hrest
    have hd : data = [] := List.length_eq_zero.mp (Nat.le_zero.mp hn)
    subst hd
    rw [chunksLoopU8, dif_neg hcs.ne', dif_pos (by simp)]
    exact ⟨rfl, rfl, ⟨[], by simp, by simp, by simp [audioConcat, decodePairs]⟩,
      by simp [hrest, decodePairs]⟩
  | succ n ih =>
    intro b data hn hcs hrest
    by_cases h0 : data.length = 0
    · have hd : data = [] := List.length_eq_zero.mp h0
      subst hd
      rw [chunksLoopU8, dif_neg hcs.ne', dif_pos (by simp)]
      exact ⟨rfl, rfl, ⟨[], by simp, by simp, by simp [audioConcat, decodePairs]⟩,
        by simp [hrest, decodePairs]⟩
    · have hdplen : (decodePairs data).length = data.length / 2 :=
        decodePairs_length data
      by_cases hs : data.length < b.chunk_size * 2
      · rw [chunksLoopU8, dif_neg hcs.ne', dif_neg h0, dif_pos hs]
        have hmlt : (decodePairs data).length < b.chunk_size := by omega
        have hm : (decodePairs data).length % b.chunk_size
            = (decodePairs data).length := Nat.mod_eq_of_lt hmlt
        refine ⟨rfl, rfl, ⟨[], by simp, by simp, by simp [audioConcat, hm]⟩, ?_⟩
        simp [hm]
      · rw [chunksLoopU8, dif_neg hcs.ne', dif_neg h0, dif_neg hs]
        have hcs_le2 : b.chunk_size * 2 ≤ data.length := le_of_not_lt hs
        have htake : decodePairs (data.take (b.chunk_size * 2))
            = (decodePairs data).take b.chunk_size := by
          rw [show b.chunk_size * 2 = 2 * b.chunk_size from by ring]
          exact decodePairs_take data b.chunk_size
        have hdrop : decodePairs (data.drop (b.chunk_size * 2))
            = (decodePairs data).drop b.chunk_size := by
          rw [show b.chunk_size * 2 = 2 * b.chunk_size from by ring]
          exact decodePairs_drop data b.chunk_size
        have hlen1 : (data.drop (b.chunk_size * 2)).length ≤ n := by
          simp only [List.length_drop]; omega
        obtain ⟨hC, hV, ⟨items, hcache, hall, hconcat⟩, hrest'⟩ :=
          ih { b with cache := b.cache ++
                [SendBufferItem.Audio
                  ((decodePairs (data.take (b.chunk_size * 2))).map
                    (fun x => get_volume x b.volume))] }
            (data.drop (b.chunk_size * 2)) hlen1 hcs hrest
        rw [hdrop] at hconcat hrest'
        have hcs_le : b.chunk_size ≤ (decodePairs data).length := by omega
        have hdroplen : ((decodePairs data).drop b.chunk_size).length
            = (decodePairs data).length - b.chunk_size := List.length_drop _ _
        have hmod : (decodePairs data).length % b.chunk_size
            = ((decodePairs data).length - b.chunk_size) % b.chunk_size := by
          conv_lhs => rw [← Nat.sub_add_cancel hcs_le]
          rw [Nat.add_mod_right]
        have hmodle : ((decodePairs data).length - b.chunk_size) % b.chunk_size
            ≤ (decodePairs data).length - b.chunk_size := Nat.mod_le _ _
        have harith : b.chunk_size +
            (((decodePairs data).length - b.chunk_size) -
              ((decodePairs data).length - b.chunk_size) % b.chunk_size)
            = (decodePairs data).length
              - (decodePairs data).length % b.chunk_size := by omega
        refine ⟨hC, hV,
          ⟨SendBufferItem.Audio
              ((decodePairs (data.take (b.chunk_size * 2))).map
                (fun x => get_volume x b.volume)) :: items, ?_, ?_, ?_⟩, ?_⟩
        · rw [hcache]; simp
        · intro it hit
          rcases List.mem_cons.mp hit with hit | hit
          · refine ⟨_, hit, ?_⟩
            simp [htake, List.length_take, Nat.min_eq_left hcs_le]
          · exact hall it hit
        · rw [audioConcat, hconcat, htake, hdroplen, ← List.map_append,
            ← List.take_add, harith]
        · rw [hrest', hdroplen, List.drop_drop]
          congr 1

/-- The repacking invariant of the playback send-buffer: after feeding the
sample stream `ins` (at constant volume `v`), the cache holds full
volume-scaled chunks of exactly `chunk_size` samples covering the longest
chunk-aligned prefix of `ins` in order, and `rest` carries the remaining
`ins.length % chunk_size` trailing samples unscaled. -/
def SendInv (cs : Nat) (v : Int) (b : SendBuffer) (ins : List Int) : Prop :=
  b.chunk_size = cs ∧ b.volume = v ∧
  (∀ it ∈ b.cache, ∃ a, it = SendBufferItem.Audio a ∧ a.length = cs) ∧
  audioConcat b.cache
    = (ins.take (ins.length - ins.length % cs)).map (fun x => get_volume x v) ∧
  b.rest = ins.drop (ins.length - ins.length % cs)

theorem sendInv_rest_length {cs v b ins} (h : SendInv cs v b ins) :
    b.rest.length = ins.length % cs := by
  obtain ⟨-, -, -, -, hrest⟩ := h
  rw [hrest, List.length_drop]
  have := Nat.mod_le ins.length cs
  omega

/-- Extending the invariant when the carry is empty and the new samples ran
through a chunks loop (the loop's effect is given by its spec). -/
theorem sendInv_emptyrest {cs v} (hcs : 0 < cs) {b result : SendBuffer}
    {ins S : List Int} (h : SendInv cs v b ins) (hre : b.rest = [])
    (rc : result.chunk_size = cs) (rv : result.volume = v)
    (rcache : ∃ items, result.cache = b.cache ++ items ∧
      (∀ it ∈ items, ∃ a, it = SendBufferItem.Audio a ∧ a.length = cs) ∧
      audioConcat items = (S.take (S.length - S.length % cs)).map
        (fun x => get_volume x v))
    (rrest : result.rest = S.drop (S.length - S.length % cs)) :
    SendInv cs v result (ins ++ S) := by
  obtain ⟨hC, hV, hall, hcat, hrest⟩ := h
  obtain ⟨items, hcache, hall', hconcat⟩ := rcache
  have hmod0 : ins.length % cs = 0 := by
    have h0 : (ins.drop (ins.length - ins.length % cs)).length = 0 := by
      rw [← hrest, hre]; rfl
    rw [List.length_drop] at h0
    have := Nat.mod_le ins.length cs
    omega
  have hK : (ins ++ S).length % cs = S.length % cs := by
    rw [List.length_append, ← Nat.mod_add_mod, hmod0, Nat.zero_add]
  have hmle : S.length % cs ≤ S.length := Nat.mod_le _ _
  have hKeq : (ins ++ S).length - (ins ++ S).length % cs
      = ins.length + (S.length - S.length % cs) := by
    rw [hK, List.length_append]; omega
  refine ⟨rc, rv, ?_, ?_, ?_⟩
  · intro it hit
    rw [hcache] at hit
    rcases List.mem_append.mp hit with hit | hit
    · exact hall it hit
    · exact hall' it hit
  · rw [hcache, audioConcat_append, hcat, hconcat, hKeq, List.take_append,
      hmod0, Nat.sub_zero, List.take_length, List.map_append]
  · rw [rrest, hKeq, List.drop_append]

/-- Extending the invariant when a non-empty carry is completed to a full
chunk and the remaining samples ran through a chunks loop. -/
theorem sendInv_flush {cs v} (hcs : 0 < cs) {b result : SendBuffer}
    {ins S : List Int} (h : SendInv cs v b ins)
    (hneed : cs - b.rest.length ≤ S.length)
    (rc : result.chunk_size = cs) (rv : result.volume = v)
    (rcache : ∃ items, result.cache = b.cache ++
        [SendBufferItem.Audio
          ((b.rest ++ S.take (cs - b.rest.length)).map (fun x => get_volume x v))]
        ++ items ∧
      (∀ it ∈ items, ∃ a, it = SendBufferItem.Audio a ∧ a.length = cs) ∧
      audioConcat items
        = ((S.drop (cs - b.rest.length)).take
            ((S.drop (cs - b.rest.length)).length
              - (S.drop (cs - b.rest.length)).length % cs)).map
            (fun x => get_volume x v))
    (rrest : result.rest = (S.drop (cs - b.rest.length)).drop
        ((S.drop (cs - b.rest.length)).length
          - (S.drop (cs - b.rest.length)).length % cs)) :
    SendInv cs v result (ins ++ S) := by
  have hrlen := sendInv_rest_length h
  obtain ⟨hC, hV, hall, hcat, hrest⟩ := h
  obtain ⟨items, hcache, hall', hconcat⟩ := rcache
  rw [hrlen] at hneed hcache hconcat rrest
  have hrlt : ins.length % cs < cs := Nat.mod_lt _ hcs
  have hTle : ins.length % cs ≤ ins.length := Nat.mod_le _ _
  have hdl : (S.drop (cs - ins.length % cs)).length
      = S.length - (cs - ins.length % cs) := List.length_drop _ _
  rw [hdl] at hconcat rrest
  have hm2cs : (S.length - (cs - ins.length % cs)) + cs
      = ins.length % cs + S.length := by omega
  have key : (ins.length + S.length) % cs
      = (S.length - (cs - ins.length % cs)) % cs := by
    rw [← Nat.mod_add_mod,
      ← Nat.add_mod_right (S.length - (cs - ins.length % cs)) cs, hm2cs]
  have hBle : (S.length - (cs - ins.length % cs)) % cs
      ≤ S.length - (cs - ins.length % cs) := Nat.mod_le _ _
  have hBlt : (S.length - (cs - ins.length % cs)) % cs < cs := Nat.mod_lt _ hcs
  have hKeq : (ins ++ S).length - (ins ++ S).length % cs
      = ins.length + ((cs - ins.length % cs) +
          ((S.length - (cs - ins.length % cs))
            - (S.length - (cs - ins.length % cs)) % cs)) := by
    rw [List.length_append, key]; omega
  refine ⟨rc, rv, ?_, ?_, ?_⟩
  · intro it hit
    rw [hcache] at hit
    rcases List.mem_append.mp hit with hit | hit
    · rcases List.mem_append.mp hit with hit | hit
      · exact hall it hit
      · rcases List.mem_singleton.mp hit with rfl
        refine ⟨_, rfl, ?_⟩
        rw [List.length_map, List.length_append, List.length_take, hrlen,
          Nat.min_eq_left hneed]
        omega
    · exact hall' it hit
  · rw [hcache, audioConcat_append, audioConcat_append, hcat, hconcat,
      audioConcat, audioConcat, hKeq, List.take_append, hrest]
    simp only [List.append_nil, ← List.map_append]
    congr 1
    simp only [List.append_assoc]
    rw [← List.take_add, ← List.append_assoc, List.take_append_drop]
  · rw [rrest, hKeq, List.drop_append, List.drop_drop]

/-- Extending the invariant when the new samples are too few to complete
the non-empty carry: they are appended to the carry. -/
theorem sendInv_noflush {cs v} (hcs : 0 < cs) {b : SendBuffer}
    {ins S : List Int} (h : SendInv cs v b ins)
    (hlt : S.length < cs - b.rest.length) :
    SendInv cs v { b with rest := b.rest ++ S } (ins ++ S) := by
  have hrlen := sendInv_rest_length h
  obtain ⟨hC, hV, hall, hcat, hrest⟩ := h
  have hrlt : ins.length % cs < cs := Nat.mod_lt _ hcs
  have hTle : ins.length % cs ≤ ins.length := Nat.mod_le _ _
  have hlt' : S.length < cs - ins.length % cs := by rw [← hrlen]; exact hlt
  have hK : (ins ++ S).length % cs = ins.length % cs + S.length := by
    rw [List.length_append, ← Nat.mod_add_mod]
    exact Nat.mod_eq_of_lt (by omega)
  have hKeq : (ins ++ S).length - (ins ++ S).length % cs
      = ins.length - ins.length % cs := by
    rw [hK, List.length_append]; omega
  refine ⟨hC, hV, hall, ?_, ?_⟩
  · rw [hKeq, hcat]
    congr 1
    rw [List.take_append_eq_append_take,
      show ins.length - ins.length % cs - ins.length = 0 by omega]
    simp
  · show b.rest ++ S = (ins ++ S).drop ((ins ++ S).length - (ins ++ S).length % cs)
    rw [hKeq, List.drop_append_eq_append_drop,
      show ins.length - ins.length % cs - ins.length = 0 by omega, List.drop_zero,
      hrest]

/-- `chunksLoopI16_spec` with the buffer configuration abstracted to the
ambient chunk size and volume. -/
theorem chunksLoopI16_specC (cs : Nat) (v : Int) (b : SendBuffer) (data : List Int)
    (hbc : b.chunk_size = cs) (hbv : b.volume = v) (hcs : 0 < cs) (hre : b.rest = []) :
    (chunksLoopI16 b data).chunk_size = cs ∧
    (chunksLoopI16 b data).volume = v ∧
    (∃ items, (chunksLoopI16 b data).cache = b.cache ++ items ∧
      (∀ it ∈ items, ∃ a, it = SendBufferItem.Audio a ∧ a.length = cs) ∧
      audioConcat items = (data.take (data.length - data.length % cs)).map
        (fun x => get_volume x v)) ∧
    (chunksLoopI16 b data).rest = data.drop (data.length - data.length % cs) := by
  subst hbc
  subst hbv
  exact chunksLoopI16_spec data.length b data le_rfl hcs hre

/-- `chunksLoopU8_spec` with the buffer configuration abstracted to the
ambient chunk size and volume. -/
theorem chunksLoopU8_specC (cs : Nat) (v : Int) (b : SendBuffer) (data : List Nat)
    (hbc : b.chunk_size = cs) (hbv : b.volume = v) (hcs : 0 < cs) (hre : b.rest = []) :
    (chunksLoopU8 b data).chunk_size = cs ∧
    (chunksLoopU8 b data).volume = v ∧
    (∃ items, (chunksLoopU8 b data).cache = b.cache ++ items ∧
      (∀ it ∈ items, ∃ a, it = SendBufferItem.Audio a ∧ a.length = cs) ∧
      audioConcat items
        = ((decodePairs data).take
            ((decodePairs data).length - (decodePairs data).length % cs)).map
            (fun x => get_volume x v)) ∧
    (chunksLoopU8 b data).rest
      = (decodePairs data).drop
          ((decodePairs data).length - (decodePairs data).length % cs) := by
  subst hbc
  subst hbv
  exact chunksLoopU8_spec data.length b data le_rfl hcs hre

/-- `push_i16` preserves the repacking invariant, extending the fed stream
by the pushed samples. -/
theorem push_i16_inv {cs : Nat} {v : Int} (hcs : 0 < cs) {b : SendBuffer}
    {ins : List Int} (h : SendInv cs v b ins) (data : List Int) :
    SendInv cs v (b.push_i16 data) (ins ++ data) := by
  have hC : b.chunk_size = cs := h.1
  have hV : b.volume = v := h.2.1
  by_cases hr : b.rest.length > 0
  · by_cases hd : data.length ≥ b.chunk_size - b.rest.length
    · rw [hC] at hd
      have hstep : b.push_i16 data
          = chunksLoopI16
              { b with rest := [], cache := b.cache ++
                  [SendBufferItem.Audio
                    ((b.rest ++ data.take (cs - b.rest.length)).map
                      (fun x => get_volume x v))] }
              (data.drop (cs - b.rest.length)) := by
        simp only [SendBuffer.push_i16, hr, if_true, hC, hV, hd]
      rw [hstep]
      obtain ⟨sC, sV, ⟨items, scache, sall, sconcat⟩, srest⟩ :=
        chunksLoopI16_specC cs v
          { b with rest := [], cache := b.cache ++
              [SendBufferItem.Audio
                ((b.rest ++ data.take (cs - b.rest.length)).map
                  (fun x => get_volume x v))] }
          (data.drop (cs - b.rest.length)) hC hV hcs rfl
      refine sendInv_flush hcs h (by omega) sC sV ⟨items, ?_, sall, sconcat⟩ srest
      rw [scache]
    · have hstep : b.push_i16 data = { b with rest := b.rest ++ data } := by
        simp only [SendBuffer.push_i16, hr, if_true, hd, if_false]
      rw [hstep]
      exact sendInv_noflush hcs h (by rw [← hC]; omega)
  · have hre : b.rest = [] := List.eq_nil_of_length_eq_zero (by omega)
    have hstep : b.push_i16 data = chunksLoopI16 b data := by
      simp only [SendBuffer.push_i16, hr, if_false]
    rw [hstep]
    obtain ⟨sC, sV, ⟨items, scache, sall, sconcat⟩, srest⟩ :=
      chunksLoopI16_specC cs v b data hC hV hcs hre
    exact sendInv_emptyrest hcs h hre sC sV ⟨items, scache, sall, sconcat⟩ srest

/-- `push_u8` preserves the repacking invariant, extending the fed stream
by the decoded samples of the pushed bytes. -/
theorem push_u8_inv {cs : Nat} {v : Int} (hcs : 0 < cs) {b : SendBuffer}
    {ins : List Int} (h : SendInv cs v b ins) (data : List Nat) :
    SendInv cs v (b.push_u8 data) (ins ++ decodePairs data) := by
  have hC : b.chunk_size = cs := h.1
  have hV : b.volume = v := h.2.1
  have hdp : (decodePairs data).length = data.length / 2 := decodePairs_length data
  by_cases hr : b.rest.length > 0
  · by_cases hd : data.length ≥ b.chunk_size * 2 - b.rest.length * 2
    · rw [hC] at hd
      have hb2 : cs * 2 - b.rest.length * 2 = 2 * (cs - b.rest.length) := by omega
      have hd2 : data.length ≥ 2 * (cs - b.rest.length) := by omega
      have hstep : b.push_u8 data
          = chunksLoopU8
              { b with rest := [], cache := b.cache ++
                  [SendBufferItem.Audio
                    ((b.rest ++ decodePairs (data.take (2 * (cs - b.rest.length)))).map
                      (fun x => get_volume x v))] }
              (data.drop (2 * (cs - b.rest.length))) := by
        simp only [SendBuffer.push_u8, hr, if_true, hC, hV, hd, hb2, hd2]
      rw [hstep]
      obtain ⟨sC, sV, ⟨items, scache, sall, sconcat⟩, srest⟩ :=
        chunksLoopU8_specC cs v
          { b with rest := [], cache := b.cache ++
              [SendBufferItem.Audio
                ((b.rest ++ decodePairs (data.take (2 * (cs - b.rest.length)))).map
                  (fun x => get_volume x v))] }
          (data.drop (2 * (cs - b.rest.length))) hC hV hcs rfl
      rw [decodePairs_drop] at sconcat srest
      refine sendInv_flush hcs h (by omega) sC sV ⟨items, ?_, sall, sconcat⟩ srest
      rw [scache, decodePairs_take]
    · have hstep : b.push_u8 data = { b with rest := b.rest ++ decodePairs data } := by
        simp only [SendBuffer.push_u8, hr, if_true, hd, if_false]
      rw [hstep]
      refine sendInv_noflush hcs h ?_
      rw [← hC] at *
      omega
  · have hre : b.rest = [] := List.eq_nil_of_length_eq_zero (by omega)
    have hstep : b.push_u8 data = chunksLoopU8 b data := by
      simp only [SendBuffer.push_u8, hr, if_false]
    rw [hstep]
    obtain ⟨sC, sV, ⟨items, scache, sall, sconcat⟩, srest⟩ :=
      chunksLoopU8_specC cs v b data hC hV hcs hre
    exact sendInv_emptyrest hcs h hre sC sV ⟨items, scache, sall, sconcat⟩ srest

theorem sendInv_new (cs : Nat) : SendInv cs 3 (SendBuffer.new cs) [] := by
  refine ⟨rfl, rfl, by simp [SendBuffer.new], ?_, ?_⟩ <;>
    simp [SendBuffer.new, audioConcat]

theorem applyOps_inv {cs : Nat} (hcs : 0 < cs) :
    ∀ (ops : List PushOp) (b : SendBuffer) (ins : List Int),
      SendInv cs 3 b ins →
      SendInv cs 3 (ops.foldl applyOp b) (ins ++ inputSamples ops) := by
  intro ops
  induction ops with
  | nil => intro b ins h; simpa [inputSamples] using h
  | cons op tl ih =>
    intro b ins h
    have h1 : SendInv cs 3 (applyOp b op) (ins ++ opSamples op) := by
      cases op with
      | i16 d => exact push_i16_inv hcs h d
      | u8 d => exact push_u8_inv hcs h d
    have h2 := ih (applyOp b op) (ins ++ opSamples op) h1
    simpa [inputSamples, opSamples, List.append_assoc] using h2

theorem drain_all_audio : ∀ q : List SendBufferItem,
    (∀ it ∈ q, ∃ a, it = SendBufferItem.Audio a) → drain q = q
  | [] => fun _ => by rw [drain]; rfl
  | it :: q => fun hall => by
      obtain ⟨a, rfl⟩ := hall _ (List.mem_cons_self _ _)
      rw [drain]
      show SendBufferItem.Audio a :: drain q = SendBufferItem.Audio a :: q
      exact congrArg _ (drain_all_audio q fun it h => hall it (List.mem_cons_of_mem _ h))

/-- C7: for every sequence of `push_u8`/`push_i16` calls starting from a
fresh send buffer with positive chunk size, draining via repeated
`get_chunk` yields only `Audio` entries of exactly `chunk_size` samples;
their concatenation is the volume-scaled longest chunk-aligned prefix of
the pushed samples in input order; and the `rest` carry holds exactly the
remaining `input length % chunk_size` trailing samples, carried over from
each push into the next. -/
theorem c7_repack_roundtrip (ops : List PushOp) (cs : Nat) (hcs : 0 < cs) :
    (∀ it ∈ drain ((ops.foldl applyOp (SendBuffer.new cs)).cache),
        ∃ a, it = SendBufferItem.Audio a ∧ a.length = cs) ∧
    audioConcat (drain ((ops.foldl applyOp (SendBuffer.new cs)).cache))
      = ((inputSamples ops).take
          ((inputSamples ops).length - (inputSamples ops).length % cs)).map
          (fun x => get_volume x 3) ∧
    (ops.foldl applyOp (SendBuffer.new cs)).rest
      = (inputSamples ops).drop
          ((inputSamples ops).length - (inputSamples ops).length % cs) ∧
    (ops.foldl applyOp (SendBuffer.new cs)).rest.length
      = (inputSamples ops).length % cs := by
  have h := applyOps_inv hcs ops (SendBuffer.new cs) [] (sendInv_new cs)
  rw [List.nil_append] at h
  obtain ⟨hC, hV, hall, hcat, hrest⟩ := h
  have hdr : drain ((ops.foldl applyOp (SendBuffer.new cs)).cache)
      = (ops.foldl applyOp (SendBuffer.new cs)).cache :=
    drain_all_audio _ fun it hmem => (hall it hmem).imp fun a ha => ha.1
  refine ⟨?_, ?_, hrest, ?_⟩
  · rw [hdr]; exact hall
  · rw [hdr]; exact hcat
  · rw [hrest, List.length_drop]
    have := Nat.mod_le (inputSamples ops).length cs
    omega

/-- C7 witness: pushing `[1, 2, 3]` into a fresh buffer of chunk size 2
yields one scaled 2-sample chunk (volume level 3 divides by 4) and carries
the odd sample `3` in the rest. -/
theorem c7_repack_roundtrip_witness :
    audioConcat (drain (([PushOp.i16 [1, 2, 3]].foldl applyOp
        (SendBuffer.new 2)).cache))
      = [Int.tdiv 1 4, Int.tdiv 2 4] ∧
    ([PushOp.i16 [1, 2, 3]].foldl applyOp (SendBuffer.new 2)).rest = [3] := by
  have h := c7_repack_roundtrip [PushOp.i16 [1, 2, 3]] 2 (by norm_num)
  refine ⟨h.2.1.trans ?_, h.2.2.1.trans ?_⟩ <;> decide

end EchoKit
